import Mathlib

/-!
Verification of `ImageConverter/image-format-converter.py`.

A shallow embedding of the WebP-to-JPEG converter: the single-image
converter with its transparency-flattening policy, the pure output-path
derivation (`os.path.splitext`), the batch directory walker (`os.listdir`
and `os.walk`), and the CLI dispatch in `main`.  The imaging library is
modelled by an explicit environment of fallible decode/encode primitives;
pixel compositing uses the exact integer blend arithmetic of the library's
`paste` with a mask (`MULDIV255`/`BLEND`).
-/

set_option autoImplicit false

namespace ImageConverter

/-- Path strings are modelled as lists of characters. -/
abbrev Path := List Char

/-! ### Image model

Color modes the converter inspects.  `RGBA` is full color with alpha,
`LA` grayscale with alpha, `RGB` opaque color, `L` opaque grayscale,
`P` palette-indexed.  These are the modes relevant to the branch
`img.mode in ("RGBA", "LA")` on the source's line 34. -/

inductive Mode : Type where
  | RGBA | LA | RGB | L | P
  deriving DecidableEq

/-- Number of channel bands a pixel of each mode carries (the length of
`img.split()` in the library). -/
def bands : Mode → Nat
  | Mode.RGBA => 4
  | Mode.LA => 2
  | Mode.RGB => 3
  | Mode.L => 1
  | Mode.P => 1

/-- A decoded bitmap: a color mode, pixel dimensions, per-pixel channel
lists, and a palette (used only by mode `P`). -/
structure Img : Type where
  mode : Mode
  width : Nat
  height : Nat
  px : Nat → Nat → List Nat
  pal : Nat → List Nat

/-- Well-formedness: inside the bitmap every pixel has as many channels as
its mode prescribes and each channel value is an 8-bit sample. -/
def Img.wf (img : Img) : Prop :=
  ∀ x, x < img.width → ∀ y, y < img.height →
    (img.px x y).length = bands img.mode ∧ ∀ c ∈ img.px x y, c ≤ 255

/-- The library's `MULDIV255(a, b, tmp)` macro:
`tmp = a*b + 128; ((tmp >> 8) + tmp) >> 8`. -/
def muldiv255 (a b : Nat) : Nat :=
  ((a * b + 128) / 256 + (a * b + 128)) / 256

/-- The library's `BLEND(mask, in1, in2)` used by `paste` with an 8-bit
mask: `MULDIV255(in1, 255 - mask) + MULDIV255(in2, mask)`. -/
def blendChan (m bgc srcc : Nat) : Nat :=
  muldiv255 bgc (255 - m) + muldiv255 srcc m

/-- `img.convert("RGB")`: drop alpha for `RGBA`, replicate the gray level
for `LA`/`L`, identity for `RGB`, palette lookup for `P`. -/
def convertRGB (img : Img) : Img :=
  { mode := Mode.RGB, width := img.width, height := img.height, pal := img.pal,
    px := fun x y =>
      match img.mode, img.px x y with
      | Mode.RGBA, l => l.take 3
      | Mode.LA, l => [l.getD 0 0, l.getD 0 0, l.getD 0 0]
      | Mode.RGB, l => l
      | Mode.L, l => [l.getD 0 0, l.getD 0 0, l.getD 0 0]
      | Mode.P, l => img.pal (l.getD 0 0) }

/-- `Image.new("RGB", img.size, (255, 255, 255))`: an opaque white canvas
of the given dimensions. -/
def imageNewRGBWhite (w h : Nat) : Img :=
  { mode := Mode.RGB, width := w, height := h,
    px := fun _ _ => [255, 255, 255], pal := fun _ => [] }

/-- The blend mask of the source's line 38:
`img.split()[3] if img.mode == "RGBA" else img.split()[1]`. -/
def pasteMask (img : Img) (x y : Nat) : Nat :=
  (img.px x y).getD (if img.mode = Mode.RGBA then 3 else 1) 0

/-- `background.paste(img, mask=...)`: blend the source's color channels
over the background per channel, weighted by the mask. -/
def pasteOnto (bg : Img) (src : Img) (mask : Nat → Nat → Nat) : Img :=
  { bg with
    px := fun x y =>
      List.zipWith (fun b s => blendChan (mask x y) b s)
        (bg.px x y) ((convertRGB src).px x y) }

/-- The image handed to the encoder (source lines 34-41): if the mode
carries alpha (`RGBA` or `LA`), paste onto a white canvas using the alpha
channel as mask; otherwise convert directly to `RGB`. -/
def convertedImage (img : Img) : Img :=
  if img.mode = Mode.RGBA ∨ img.mode = Mode.LA then
    pasteOnto (imageNewRGBWhite img.width img.height) img (pasteMask img)
  else
    convertRGB img

/-- Witness image for the transparency policy: a 1x2 `RGBA` bitmap whose
first row is fully transparent and second row fully opaque. -/
def c1Img : Img :=
  { mode := Mode.RGBA, width := 1, height := 2,
    px := fun _ y => if y = 0 then [10, 20, 30, 0] else [10, 20, 30, 255],
    pal := fun _ => [] }

/-! ### Output-path derivation

`os.path.splitext` (POSIX flavor): find the last separator and the last
dot; if the last dot lies strictly after the last separator and the name
does not consist solely of leading dots up to it, split there.  Python's
`str.rfind` returns `-1` when the character is absent; we model it with
`Option Nat`. -/

/-- Index of the last occurrence of `c` in the list (`str.rfind`), or
`none` when absent. -/
def rfind? (c : Char) : List Char → Option Nat
  | [] => none
  | a :: rest =>
    match rfind? c rest with
    | some r => some (r + 1)
    | none => if a = c then some 0 else none

/-- Python's `dotIndex > sepIndex` where a missing index stands for `-1`. -/
def afterSep : Option Nat → Nat → Bool
  | none, _ => true
  | some s, d => s < d

/-- `sepIndex + 1`, the first index of the file name component. -/
def nameStart : Option Nat → Nat
  | none => 0
  | some s => s + 1

/-- `os.path.splitext(p)`: the root/extension split of a path. -/
def splitext (p : Path) : Path × Path :=
  match rfind? '.' p with
  | some d =>
    if afterSep (rfind? '/' p) d then
      if ((p.drop (nameStart (rfind? '/' p))).take
            (d - nameStart (rfind? '/' p))).any (fun a => a ≠ '.') then
        (p.take d, p.drop d)
      else (p, [])
    else (p, [])
  | none => (p, [])

/-- The derived output path of source lines 29-31:
`os.path.splitext(input_path)[0] + ".jpg"`. -/
def derivedOutputPath (input_path : Path) : Path :=
  (splitext input_path).1 ++ ['.', 'j', 'p', 'g']

/-! ### Single-image converter -/

/-- Observable output lines of the program: the success line of source
line 43, the error line of line 46, the warning of line 84, and
`parser.print_help()` of line 89. -/
inductive Event : Type where
  | converted : Path → Path → Event
  | errorConverting : Path → String → Event
  | warnOutputIgnored : Event
  | printHelp : Event
  deriving DecidableEq

/-- The imaging library as an environment of fallible primitives:
`openImage` is `Image.open`, `saveImage path img quality` is
`img.save(path, "JPEG", quality=quality)`.  An `Except.error` models a
raised exception. -/
structure PILEnv : Type where
  openImage : Path → Except String Img
  saveImage : Path → Img → Int → Except String Unit

/-- The body of `convert_webp_to_jpeg`'s `try` block (source lines 24-44):
decode, derive the output path when none is supplied, flatten
transparency, encode at the requested quality, and yield the output
path. -/
def convertBody (env : PILEnv) (input_path : Path) (output_path : Option Path)
    (quality : Int) : Except String Path :=
  (env.openImage input_path).bind (fun img =>
    let out := match output_path with
      | some p => p
      | none => derivedOutputPath input_path
    (env.saveImage out (convertedImage img) quality).map (fun _ => out))

/-- `convert_webp_to_jpeg` (source lines 11-47): run the body, print the
confirmation line and return the output path on success; catch every
exception, print the error with the offending input path and return
`None` on failure. -/
def convert_webp_to_jpeg (env : PILEnv) (input_path : Path)
    (output_path : Option Path) (quality : Int) :
    Option Path × List Event :=
  match convertBody env input_path output_path quality with
  | Except.ok out => (some out, [Event.converted input_path out])
  | Except.error e => (none, [Event.errorConverting input_path e])

/-- Witness environment for the quality pass-through: an encoder that
rejects qualities outside 1-100 and a decoder that always succeeds. -/
def c8Env : PILEnv :=
  { openImage := fun _ => Except.ok c1Img,
    saveImage := fun _ _ q =>
      if q < 1 ∨ 100 < q then Except.error "quality out of range"
      else Except.ok () }

/-! ### File system and batch directory walker -/

mutual
inductive FSEntry : Type where
  | file : FSEntry
  | dir : FSListing → FSEntry
inductive FSListing : Type where
  | nil : FSListing
  | cons : Path → FSEntry → FSListing → FSListing
end

/-- `file.lower().endswith('.webp')` (source lines 61 and 65). -/
def endsWithWebp (name : Path) : Bool :=
  ['.', 'w', 'e', 'b', 'p'].isSuffixOf (name.map Char.toLower)

/-- `os.path.join` for POSIX paths: a leading separator in the second
component makes it absolute, otherwise the components are joined with a
single separator. -/
def pathJoin (a b : Path) : Path :=
  if b.head? = some '/' then b
  else if a = [] ∨ a.getLast? = some '/' then a ++ b
  else a ++ '/' :: b

/-- `os.listdir`: names of all entries of a directory, regular files and
subdirectories alike. -/
def listingNames : FSListing → List Path
  | FSListing.nil => []
  | FSListing.cons n _ rest => n :: listingNames rest

/-- The regular-file names of a directory, as `os.walk` reports them in
its `files` component. -/
def fileNames : FSListing → List Path
  | FSListing.nil => []
  | FSListing.cons n FSEntry.file rest => n :: fileNames rest
  | FSListing.cons _ (FSEntry.dir _) rest => fileNames rest

/-- The `(root, files)` pairs `os.walk` yields for the subdirectories of
a directory, top-down in listing order. -/
def walkSubsOf (p : Path) : FSListing → List (Path × List Path)
  | FSListing.nil => []
  | FSListing.cons _ FSEntry.file rest => walkSubsOf p rest
  | FSListing.cons n (FSEntry.dir sub) rest =>
    ((pathJoin p n, fileNames sub) :: walkSubsOf (pathJoin p n) sub) ++
      walkSubsOf p rest

/-- `os.walk(p)`: the directory itself first, then its subdirectories. -/
def osWalk (p : Path) (l : FSListing) : List (Path × List Path) :=
  (p, fileNames l) :: walkSubsOf p l

/-- `batch_convert_webp_to_jpeg` (source lines 49-66): walk the tree when
`recursive`, else list the directory, and invoke the single-image
converter (with no output-path override) on every entry whose lowercased
name ends in `.webp`. -/
def batch_convert_webp_to_jpeg (env : PILEnv) (directory : Path)
    (listing : FSListing) (quality : Int) (recursive : Bool) : List Event :=
  if recursive then
    (osWalk directory listing).flatMap (fun rf =>
      rf.2.flatMap (fun file =>
        if endsWithWebp file then
          (convert_webp_to_jpeg env (pathJoin rf.1 file) none quality).2
        else []))
  else
    (listingNames listing).flatMap (fun file =>
      if endsWithWebp file then
        (convert_webp_to_jpeg env (pathJoin directory file) none quality).2
      else [])

/-- The input path a printed event reports, when it reports one. -/
def eventInput : Event → Option Path
  | Event.converted i _ => some i
  | Event.errorConverting i _ => some i
  | Event.warnOutputIgnored => none
  | Event.printHelp => none

/-- The input paths the single-image converter was invoked on, read off
the event stream (each invocation prints exactly one line naming its
input). -/
def convertedInputs (evts : List Event) : List Path :=
  evts.filterMap eventInput

/-- The listing has an entry of the given name that is a subdirectory
with the given contents. -/
def hasDirEntry : FSListing → Path → FSListing → Prop
  | FSListing.nil, _, _ => False
  | FSListing.cons n' e rest, n, sub =>
    (n' = n ∧ e = FSEntry.dir sub) ∨ hasDirEntry rest n sub

/-! ### CLI front end -/

/-- The one subcommand the argument parser recognizes. -/
inductive Cmd : Type where
  | webp2jpeg
  deriving DecidableEq

/-- The parsed command-line arguments (source lines 69-79). -/
structure Args : Type where
  command : Option Cmd
  input : Path
  output : Option Path
  quality : Int
  recursive : Bool

/-- Python's truthiness test `if args.output:` on the optional output
path: `None` and the empty string are falsy. -/
def outputTruthy : Option Path → Bool
  | none => false
  | some s => !s.isEmpty

/-- `main` after argument parsing (source lines 81-89): dispatch on the
parsed command; for `webp2jpeg`, when the input path is a directory
(modelled by `dirListing = some listing`, mirroring `os.path.isdir`)
warn if an output path was supplied and batch-convert, else convert the
single file with the supplied output path; with no recognized command,
print the usage help. -/
def main (env : PILEnv) (dirListing : Option FSListing) (args : Args) :
    List Event :=
  match args.command with
  | some Cmd.webp2jpeg =>
    match dirListing with
    | some listing =>
      (if outputTruthy args.output then [Event.warnOutputIgnored] else []) ++
        batch_convert_webp_to_jpeg env args.input listing args.quality
          args.recursive
    | none => (convert_webp_to_jpeg env args.input args.output args.quality).2
  | none => [Event.printHelp]

/-! ### Concrete witnesses -/

/-- An environment whose decoder succeeds on every path. -/
def okEnv : PILEnv :=
  { openImage := fun _ => Except.ok c1Img,
    saveImage := fun _ _ _ => Except.ok () }

/-- An environment whose decoder raises on every path (as the library
does when handed a directory or an unreadable file). -/
def failEnv : PILEnv :=
  { openImage := fun _ => Except.error "cannot identify image file",
    saveImage := fun _ _ _ => Except.ok () }

/-- An environment that fails to decode exactly `pics/a.webp`. -/
def mixedEnv : PILEnv :=
  { openImage := fun p =>
      if p = ['p', 'i', 'c', 's', '/', 'a', '.', 'w', 'e', 'b', 'p'] then
        Except.error "corrupt data"
      else Except.ok c1Img,
    saveImage := fun _ _ _ => Except.ok () }

/-- The directory `pics/` of the spec's scenario: `a.webp`, `b.WEBP`,
`c.png`. -/
def picsListing : FSListing :=
  FSListing.cons ['a', '.', 'w', 'e', 'b', 'p'] FSEntry.file
    (FSListing.cons ['b', '.', 'W', 'E', 'B', 'P'] FSEntry.file
      (FSListing.cons ['c', '.', 'p', 'n', 'g'] FSEntry.file FSListing.nil))

/-- The listing of the subdirectory `s`: a single file `n.webp`. -/
def nListing : FSListing :=
  FSListing.cons ['n', '.', 'w', 'e', 'b', 'p'] FSEntry.file FSListing.nil

/-- A directory with one subdirectory `s` holding `n.webp`. -/
def nestedListing : FSListing :=
  FSListing.cons ['s'] (FSEntry.dir nListing) FSListing.nil

/-- A directory whose sole entry is a subdirectory named `d.webp`. -/
def dirNamedWebpListing : FSListing :=
  FSListing.cons ['d', '.', 'w', 'e', 'b', 'p'] (FSEntry.dir FSListing.nil)
    FSListing.nil

/-- Arguments supplying the empty string as explicit output path next to
a directory input. -/
def emptyOutArgs : Args :=
  { command := some Cmd.webp2jpeg, input := ['p', 'i', 'c', 's'],
    output := some [], quality := 90, recursive := false }

/-- Arguments supplying the explicit output path `o.jpg` next to a
directory input. -/
def dirOutArgs : Args :=
  { command := some Cmd.webp2jpeg, input := ['p', 'i', 'c', 's'],
    output := some ['o', '.', 'j', 'p', 'g'], quality := 90,
    recursive := false }

theorem muldiv255_zero (c : Nat) : muldiv255 c 0 = 0 := by
  simp [muldiv255]

set_option maxRecDepth 4096 in
theorem muldiv255_id : ∀ c, c < 256 → muldiv255 c 255 = c := by decide

theorem blendChan_zero (s : Nat) : blendChan 0 255 s = 255 := by
  have h : muldiv255 255 (255 - 0) = 255 := by decide
  simp [blendChan, h, muldiv255_zero]

theorem blendChan_full (s : Nat) (h : s < 256) : blendChan 255 255 s = s := by
  have h1 : muldiv255 255 (255 - 255) = 0 := by decide
  simp [blendChan, h1, muldiv255_id s h, muldiv255_zero]

theorem list_len4 (l : List Nat) (h : l.length = 4) :
    ∃ r g b a, l = [r, g, b, a] := by
  match l, h with
  | [r, g, b, a], _ => exact ⟨r, g, b, a, rfl⟩

theorem list_len2 (l : List Nat) (h : l.length = 2) :
    ∃ v a, l = [v, a] := by
  match l, h with
  | [v, a], _ => exact ⟨v, a, rfl⟩

theorem convertedImage_px_alpha (img : Img)
    (hmode : img.mode = Mode.RGBA ∨ img.mode = Mode.LA) (x y : Nat) :
    (convertedImage img).px x y =
      List.zipWith (fun b s => blendChan (pasteMask img x y) b s)
        [255, 255, 255] ((convertRGB img).px x y) := by
  unfold convertedImage
  rw [if_pos hmode]
  rfl

/-- C1: an input whose mode carries an alpha channel (`RGBA` or `LA`) is
composited onto an opaque white canvas of the same dimensions with its
alpha channel as blend mask: fully transparent pixels come out solid
white and fully opaque pixels keep the source's color; an input without
an alpha channel is coerced directly to 3-channel `RGB`. -/
theorem c1_transparency_flattening (img : Img) (hwf : img.wf) :
    (¬ (img.mode = Mode.RGBA ∨ img.mode = Mode.LA) →
      convertedImage img = convertRGB img) ∧
    ((img.mode = Mode.RGBA ∨ img.mode = Mode.LA) →
      (convertedImage img).width = img.width ∧
      (convertedImage img).height = img.height ∧
      ∀ x, x < img.width → ∀ y, y < img.height →
        (pasteMask img x y = 0 →
          (convertedImage img).px x y = [255, 255, 255]) ∧
        (pasteMask img x y = 255 →
          (convertedImage img).px x y = (convertRGB img).px x y)) := by
  constructor
  · intro hno
    unfold convertedImage
    rw [if_neg hno]
  · intro hmode
    refine ⟨?_, ?_, ?_⟩
    · unfold convertedImage
      rw [if_pos hmode]
      rfl
    · unfold convertedImage
      rw [if_pos hmode]
      rfl
    · intro x hx y hy
      obtain ⟨hlen, hball⟩ := hwf x hx y hy
      have hcz := convertedImage_px_alpha img hmode x y
      rcases hmode with hR | hL
      · obtain ⟨r, g, b, a, hpx⟩ :=
          list_len4 (img.px x y) (by rw [hlen, hR]; rfl)
        have hmask : pasteMask img x y = a := by simp [pasteMask, hR, hpx]
        have hrgb : (convertRGB img).px x y = [r, g, b] := by
          simp [convertRGB, hR, hpx]
        have hr : r < 256 := Nat.lt_succ_of_le (hball r (by simp [hpx]))
        have hg : g < 256 := Nat.lt_succ_of_le (hball g (by simp [hpx]))
        have hb : b < 256 := Nat.lt_succ_of_le (hball b (by simp [hpx]))
        constructor
        · intro h0
          rw [hmask] at h0
          rw [hcz, hmask, hrgb, h0]
          simp [blendChan_zero]
        · intro h255
          rw [hmask] at h255
          rw [hcz, hmask, hrgb, h255]
          simp [blendChan_full r hr, blendChan_full g hg, blendChan_full b hb]
      · obtain ⟨v, a, hpx⟩ := list_len2 (img.px x y) (by rw [hlen, hL]; rfl)
        have hmask : pasteMask img x y = a := by simp [pasteMask, hL, hpx]
        have hrgb : (convertRGB img).px x y = [v, v, v] := by
          simp [convertRGB, hL, hpx]
        have hv : v < 256 := Nat.lt_succ_of_le (hball v (by simp [hpx]))
        constructor
        · intro h0
          rw [hmask] at h0
          rw [hcz, hmask, hrgb, h0]
          simp [blendChan_zero]
        · intro h255
          rw [hmask] at h255
          rw [hcz, hmask, hrgb, h255]
          simp [blendChan_full v hv]

theorem rfind?_getElem (c : Char) :
    ∀ (p : List Char) (r : Nat), rfind? c p = some r → p[r]? = some c := by
  intro p
  induction p with
  | nil => intro r h; simp [rfind?] at h
  | cons a rest ih =>
    intro r h
    cases hr : rfind? c rest with
    | some r' =>
      simp only [rfind?, hr] at h
      injection h with h
      subst h
      rw [List.getElem?_cons_succ]
      exact ih r' hr
    | none =>
      simp only [rfind?, hr] at h
      by_cases hac : a = c
      · rw [if_pos hac] at h
        injection h with h
        subst h
        rw [List.getElem?_cons_zero, hac]
      · rw [if_neg hac] at h
        exact absurd h (by simp)

theorem rfind?_none (c : Char) :
    ∀ (p : List Char), rfind? c p = none → c ∉ p := by
  intro p
  induction p with
  | nil => intro _ h; exact List.not_mem_nil c h
  | cons a rest ih =>
    intro h hmem
    cases hr : rfind? c rest with
    | some r' => simp [rfind?, hr] at h
    | none =>
      simp only [rfind?, hr] at h
      by_cases hac : a = c
      · rw [if_pos hac] at h; exact absurd h (by simp)
      · rcases List.mem_cons.1 hmem with h1 | h1
        · exact hac h1.symm
        · exact ih hr h1

theorem rfind?_last (c : Char) :
    ∀ (p : List Char) (r : Nat), rfind? c p = some r →
      ∀ j, r < j → p[j]? ≠ some c := by
  intro p
  induction p with
  | nil => intro r h; simp [rfind?] at h
  | cons a rest ih =>
    intro r h j hj hget
    cases hr : rfind? c rest with
    | some r' =>
      simp only [rfind?, hr] at h
      injection h with h
      subst h
      cases j with
      | zero => exact absurd hj (by omega)
      | succ j' =>
        rw [List.getElem?_cons_succ] at hget
        exact ih r' hr j' (by omega) hget
    | none =>
      simp only [rfind?, hr] at h
      by_cases hac : a = c
      · rw [if_pos hac] at h
        injection h with h
        subst h
        cases j with
        | zero => exact absurd hj (by omega)
        | succ j' =>
          rw [List.getElem?_cons_succ] at hget
          exact rfind?_none c rest hr (List.mem_iff_getElem?.2 ⟨j', hget⟩)
      · rw [if_neg hac] at h
        exact absurd h (by simp)

theorem splitext_spec (p : Path) :
    (splitext p).1 ++ (splitext p).2 = p ∧
    '/' ∉ (splitext p).2 ∧
    ((splitext p).2 = [] ∨
      ((splitext p).2.head? = some '.' ∧ '.' ∉ (splitext p).2.drop 1)) := by
  cases hd : rfind? '.' p with
  | none =>
    have heq : splitext p = (p, []) := by simp [splitext, hd]
    rw [heq]
    simp
  | some d =>
    by_cases h1 : afterSep (rfind? '/' p) d = true
    · by_cases h2 : ((p.drop (nameStart (rfind? '/' p))).take
          (d - nameStart (rfind? '/' p))).any (fun a => a ≠ '.') = true
      · have heq : splitext p = (p.take d, p.drop d) := by
          simp only [splitext, hd]
          rw [if_pos h1, if_pos h2]
        rw [heq]
        refine ⟨List.take_append_drop d p, ?_, Or.inr ⟨?_, ?_⟩⟩
        · intro hmem
          obtain ⟨k, hk⟩ := List.mem_iff_getElem?.1 hmem
          rw [List.getElem?_drop] at hk
          cases hsepv : rfind? '/' p with
          | none =>
            exact rfind?_none '/' p hsepv (List.mem_iff_getElem?.2 ⟨d + k, hk⟩)
          | some s =>
            rw [hsepv] at h1
            simp only [afterSep, decide_eq_true_eq] at h1
            exact rfind?_last '/' p s hsepv (d + k) (by omega) hk
        · rw [List.head?_eq_getElem?, List.getElem?_drop, Nat.add_zero]
          exact rfind?_getElem '.' p d hd
        · intro hmem
          rw [List.drop_drop] at hmem
          obtain ⟨k, hk⟩ := List.mem_iff_getElem?.1 hmem
          rw [List.getElem?_drop] at hk
          exact rfind?_last '.' p d hd (d + 1 + k) (by omega) hk
      · have heq : splitext p = (p, []) := by
          simp only [splitext, hd]
          rw [if_pos h1, if_neg h2]
        rw [heq]
        simp
    · have heq : splitext p = (p, []) := by
        simp only [splitext, hd]
        rw [if_neg h1]
      rw [heq]
      simp

/-- C3: with no explicit output path the derived output path is the input
path with its extension replaced by ".jpg" and everything else unchanged:
the input decomposes as `root ++ ext` where `ext` is the extension part
(no path separator; empty, or its only dot is its first character), and
the output is `root ++ ".jpg"`.  The derivation `derivedOutputPath` is a
pure function of the input, hence deterministic across repeated calls. -/
theorem c3_output_path_derivation (p : Path) :
    ∃ root ext, p = root ++ ext ∧
      derivedOutputPath p = root ++ ['.', 'j', 'p', 'g'] ∧
      '/' ∉ ext ∧
      (ext = [] ∨ (ext.head? = some '.' ∧ '.' ∉ ext.drop 1)) := by
  obtain ⟨hsplit, hsep, hext⟩ := splitext_spec p
  exact ⟨(splitext p).1, (splitext p).2, hsplit.symm, rfl, hsep, hext⟩

/-- Witness for C1 on `c1Img`: the fully transparent pixel becomes white
and the fully opaque pixel keeps the source color. -/
theorem c1_transparency_flattening_witness :
    (convertedImage c1Img).px 0 0 = [255, 255, 255] ∧
    (convertedImage c1Img).px 0 1 = (convertRGB c1Img).px 0 1 := by
  have h := c1_transparency_flattening c1Img (by unfold Img.wf; decide)
  exact ⟨((h.2 (Or.inl rfl)).2.2 0 (by decide) 0 (by decide)).1 (by decide),
         ((h.2 (Or.inl rfl)).2.2 0 (by decide) 1 (by decide)).2 (by decide)⟩

theorem convert_open_error (env : PILEnv) (inp : Path) (outp : Option Path)
    (q : Int) (e : String) (h : env.openImage inp = Except.error e) :
    convert_webp_to_jpeg env inp outp q =
      (none, [Event.errorConverting inp e]) := by
  unfold convert_webp_to_jpeg convertBody
  rw [h]
  rfl

theorem convertBody_ok_derived (env : PILEnv) (inp : Path) (q : Int)
    (out : Path) (h : convertBody env inp none q = Except.ok out) :
    out = derivedOutputPath inp := by
  unfold convertBody at h
  cases ho : env.openImage inp with
  | error e => rw [ho] at h; exact absurd h (by simp [Except.bind])
  | ok img =>
    rw [ho] at h
    simp only [Except.bind] at h
    cases hs : env.saveImage (derivedOutputPath inp) (convertedImage img) q with
    | error e => rw [hs] at h; exact absurd h (by simp [Except.map])
    | ok u => rw [hs] at h; simpa [Except.map] using h.symm

/-- C2: the single-image converter never lets an exception escape to its
caller: every run either succeeds, returning the output path and
reporting the conversion, or fails, returning `None` and reporting the
failure with the offending input path and the underlying cause. -/
theorem c2_no_exception_escape (env : PILEnv) (input_path : Path)
    (output_path : Option Path) (quality : Int) :
    (∃ out, convert_webp_to_jpeg env input_path output_path quality =
      (some out, [Event.converted input_path out])) ∨
    (∃ e, convert_webp_to_jpeg env input_path output_path quality =
      (none, [Event.errorConverting input_path e])) := by
  unfold convert_webp_to_jpeg
  cases convertBody env input_path output_path quality with
  | ok out => exact Or.inl ⟨out, rfl⟩
  | error e => exact Or.inr ⟨e, rfl⟩

/-- C8: the converter performs no quality pre-validation of its own: for
every quality value the encoder is invoked with that exact value; an
encoder rejection is caught at the converter boundary and turned into the
absence-of-result signal like any other error, while encoder acceptance
yields the derived output path. -/
theorem c8_quality_passthrough (env : PILEnv) (inp : Path) (quality : Int)
    (img : Img) (hopen : env.openImage inp = Except.ok img) :
    (∀ e, env.saveImage (derivedOutputPath inp) (convertedImage img) quality
        = Except.error e →
      convert_webp_to_jpeg env inp none quality =
        (none, [Event.errorConverting inp e])) ∧
    (env.saveImage (derivedOutputPath inp) (convertedImage img) quality
        = Except.ok () →
      convert_webp_to_jpeg env inp none quality =
        (some (derivedOutputPath inp),
         [Event.converted inp (derivedOutputPath inp)])) := by
  constructor
  · intro e hsave
    unfold convert_webp_to_jpeg convertBody
    rw [hopen]
    simp only [Except.bind]
    rw [hsave]
    rfl
  · intro hsave
    unfold convert_webp_to_jpeg convertBody
    rw [hopen]
    simp only [Except.bind]
    rw [hsave]
    rfl

/-- Witness for C8: the encoder of `c8Env` rejects quality 150 and the
converter turns that rejection into `None` plus an error report. -/
theorem c8_quality_passthrough_witness :
    c8Env.openImage ['a'] = Except.ok c1Img ∧
    convert_webp_to_jpeg c8Env ['a'] none 150 =
      (none, [Event.errorConverting ['a'] "quality out of range"]) :=
  ⟨rfl, (c8_quality_passthrough c8Env ['a'] 150 c1Img rfl).1
    "quality out of range" rfl⟩

theorem convert_inputs_single (env : PILEnv) (inp : Path)
    (outp : Option Path) (q : Int) :
    convertedInputs (convert_webp_to_jpeg env inp outp q).2 = [inp] := by
  unfold convert_webp_to_jpeg
  cases convertBody env inp outp q with
  | ok out => rfl
  | error e => rfl

theorem convertedInputs_append (l1 l2 : List Event) :
    convertedInputs (l1 ++ l2) = convertedInputs l1 ++ convertedInputs l2 :=
  List.filterMap_append l1 l2 eventInput

theorem convertedInputs_calls (env : PILEnv) (dir : Path) (q : Int) :
    ∀ names : List Path,
      convertedInputs (names.flatMap (fun file =>
        if endsWithWebp file then
          (convert_webp_to_jpeg env (pathJoin dir file) none q).2
        else [])) =
      (names.filter (fun file => endsWithWebp file)).map (pathJoin dir) := by
  intro names
  induction names with
  | nil => rfl
  | cons a rest ih =>
    rw [List.flatMap_cons, convertedInputs_append, ih, List.filter_cons]
    cases ha : endsWithWebp a with
    | false =>
      rw [if_neg (by simp), if_neg (by simp)]
      rfl
    | true =>
      rw [if_pos rfl, if_pos rfl, convert_inputs_single]
      rfl

theorem batch_false_inputs (env : PILEnv) (dir : Path) (l : FSListing)
    (q : Int) :
    convertedInputs (batch_convert_webp_to_jpeg env dir l q false) =
      ((listingNames l).filter (fun file => endsWithWebp file)).map
        (pathJoin dir) := by
  unfold batch_convert_webp_to_jpeg
  rw [if_neg (by simp)]
  exact convertedInputs_calls env dir q (listingNames l)

theorem convertedInputs_walk (env : PILEnv) (q : Int) :
    ∀ walks : List (Path × List Path),
      convertedInputs (walks.flatMap (fun rf =>
        rf.2.flatMap (fun file =>
          if endsWithWebp file then
            (convert_webp_to_jpeg env (pathJoin rf.1 file) none q).2
          else []))) =
      walks.flatMap (fun rf =>
        (rf.2.filter (fun file => endsWithWebp file)).map (pathJoin rf.1)) := by
  intro walks
  induction walks with
  | nil => rfl
  | cons rf rest ih =>
    rw [List.flatMap_cons, List.flatMap_cons, convertedInputs_append, ih,
      convertedInputs_calls env rf.1 q rf.2]

theorem batch_true_inputs (env : PILEnv) (dir : Path) (l : FSListing)
    (q : Int) :
    convertedInputs (batch_convert_webp_to_jpeg env dir l q true) =
      (osWalk dir l).flatMap (fun rf =>
        (rf.2.filter (fun file => endsWithWebp file)).map (pathJoin rf.1)) := by
  unfold batch_convert_webp_to_jpeg
  rw [if_pos rfl]
  exact convertedInputs_walk env q (osWalk dir l)

theorem hasDirEntry_name_mem (n : Path) (sub : FSListing) :
    ∀ l : FSListing, hasDirEntry l n sub → n ∈ listingNames l
  | FSListing.nil, h => False.elim h
  | FSListing.cons n' e rest, h => by
    simp only [hasDirEntry] at h
    rcases h with ⟨hn, _⟩ | hrest
    · subst hn
      simp only [listingNames]
      exact List.mem_cons_self _ _
    · simp only [listingNames]
      exact List.mem_cons_of_mem _ (hasDirEntry_name_mem n sub rest hrest)

theorem walkSubsOf_mem (n : Path) (sub : FSListing) :
    ∀ (l : FSListing) (p : Path), hasDirEntry l n sub →
      ∀ x ∈ osWalk (pathJoin p n) sub, x ∈ walkSubsOf p l
  | FSListing.nil, _, h => False.elim h
  | FSListing.cons n' e rest, p, h => by
    simp only [hasDirEntry] at h
    rcases h with ⟨hn, he⟩ | hrest
    · subst hn
      subst he
      intro x hx
      simp only [osWalk] at hx
      simp only [walkSubsOf]
      exact List.mem_append_left _ hx
    · intro x hx
      have hmem := walkSubsOf_mem n sub rest p hrest x hx
      cases e with
      | file =>
        simp only [walkSubsOf]
        exact hmem
      | dir sub' =>
        simp only [walkSubsOf]
        exact List.mem_append_right _ hmem

theorem convert_success_event (env : PILEnv) (inp : Path) (q : Int)
    (i op : Path)
    (h : Event.converted i op ∈ (convert_webp_to_jpeg env inp none q).2) :
    op = derivedOutputPath i := by
  unfold convert_webp_to_jpeg at h
  cases hb : convertBody env inp none q with
  | ok out =>
    rw [hb] at h
    simp only [List.mem_singleton] at h
    injection h with h1 h2
    subst h1
    subst h2
    exact convertBody_ok_derived env i q op hb
  | error e =>
    rw [hb] at h
    simp at h

theorem batch_converted_derived (env : PILEnv) (dir : Path) (l : FSListing)
    (q : Int) (recursive : Bool) :
    ∀ i op, Event.converted i op ∈
      batch_convert_webp_to_jpeg env dir l q recursive →
      op = derivedOutputPath i := by
  intro i op h
  unfold batch_convert_webp_to_jpeg at h
  cases recursive with
  | false =>
    rw [if_neg (by simp)] at h
    obtain ⟨f, _, hev⟩ := List.mem_flatMap.1 h
    by_cases hm : endsWithWebp f = true
    · rw [if_pos hm] at hev
      exact convert_success_event env (pathJoin dir f) q i op hev
    · rw [if_neg hm] at hev
      exact absurd hev (List.not_mem_nil _)
  | true =>
    rw [if_pos rfl] at h
    obtain ⟨rf, _, hev1⟩ := List.mem_flatMap.1 h
    obtain ⟨f, _, hev⟩ := List.mem_flatMap.1 hev1
    by_cases hm : endsWithWebp f = true
    · rw [if_pos hm] at hev
      exact convert_success_event env (pathJoin rf.1 f) q i op hev
    · rw [if_neg hm] at hev
      exact absurd hev (List.not_mem_nil _)

/-- C4: the batch walker invokes the single-image converter on exactly
the entries whose lowercased name ends in ".webp" and on no others:
non-recursively the invocation list is precisely the matching top-level
names joined to the directory, recursively precisely the matching file
names of each walked directory joined to their root. -/
theorem c4_batch_matches_exactly (env : PILEnv) (dir : Path)
    (l : FSListing) (q : Int) :
    convertedInputs (batch_convert_webp_to_jpeg env dir l q false) =
      ((listingNames l).filter (fun file => endsWithWebp file)).map
        (pathJoin dir) ∧
    convertedInputs (batch_convert_webp_to_jpeg env dir l q true) =
      (osWalk dir l).flatMap (fun rf =>
        (rf.2.filter (fun file => endsWithWebp file)).map (pathJoin rf.1)) :=
  ⟨batch_false_inputs env dir l q, batch_true_inputs env dir l q⟩

/-- C5: nested files are processed iff the recursive flag is set: with
the flag unset only the top-level directory entries are considered (the
invocation list is exactly the matching top-level names), and with it set
every matching file of every walked subdirectory is converted. -/
theorem c5_recursive_flag (env : PILEnv) (dir : Path) (l : FSListing)
    (q : Int) :
    convertedInputs (batch_convert_webp_to_jpeg env dir l q false) =
      ((listingNames l).filter (fun file => endsWithWebp file)).map
        (pathJoin dir) ∧
    (∀ n sub, hasDirEntry l n sub →
      ∀ rf ∈ osWalk (pathJoin dir n) sub, ∀ f ∈ rf.2,
        endsWithWebp f = true →
          pathJoin rf.1 f ∈
            convertedInputs (batch_convert_webp_to_jpeg env dir l q true)) := by
  refine ⟨batch_false_inputs env dir l q, ?_⟩
  intro n sub hsub rf hrf f hf hmatch
  rw [batch_true_inputs]
  have hmem : rf ∈ osWalk dir l :=
    List.mem_cons_of_mem _ (walkSubsOf_mem n sub l dir hsub rf hrf)
  exact List.mem_flatMap_of_mem hmem
    (List.mem_map_of_mem _ (List.mem_filter.2 ⟨hf, hmatch⟩))

/-- Witness for C5: in a directory `pics` with subdirectory `s` holding
`n.webp`, the recursive walk converts `pics/s/n.webp`. -/
theorem c5_recursive_flag_witness :
    hasDirEntry nestedListing ['s'] nListing ∧
    pathJoin (pathJoin ['p', 'i', 'c', 's'] ['s']) ['n', '.', 'w', 'e', 'b', 'p'] ∈
      convertedInputs
        (batch_convert_webp_to_jpeg okEnv ['p', 'i', 'c', 's'] nestedListing
          90 true) := by
  refine ⟨Or.inl ⟨rfl, rfl⟩, ?_⟩
  exact (c5_recursive_flag okEnv ['p', 'i', 'c', 's'] nestedListing 90).2
    ['s'] nListing (Or.inl ⟨rfl, rfl⟩)
    (pathJoin ['p', 'i', 'c', 's'] ['s'], [['n', '.', 'w', 'e', 'b', 'p']])
    (by decide) ['n', '.', 'w', 'e', 'b', 'p'] (by decide) (by decide)

/-- C6: failure isolation: the set of files the walker attempts depends
only on the directory contents, never on the imaging environment (hence
not on earlier per-file failures), and every matching file is attempted
under every environment, including ones where conversions fail. -/
theorem c6_failure_isolation (env env' : PILEnv) (dir : Path)
    (l : FSListing) (q : Int) (recursive : Bool) :
    convertedInputs (batch_convert_webp_to_jpeg env dir l q recursive) =
      convertedInputs (batch_convert_webp_to_jpeg env' dir l q recursive) ∧
    (∀ n ∈ listingNames l, endsWithWebp n = true →
      pathJoin dir n ∈
        convertedInputs (batch_convert_webp_to_jpeg env dir l q false)) := by
  constructor
  · cases recursive with
    | false => rw [batch_false_inputs, batch_false_inputs]
    | true => rw [batch_true_inputs, batch_true_inputs]
  · intro n hn hmatch
    rw [batch_false_inputs]
    exact List.mem_map_of_mem _ (List.mem_filter.2 ⟨hn, hmatch⟩)

/-- Witness for C6: with an environment that fails on `pics/a.webp`, the
walker still attempts the later matching file `pics/b.WEBP`. -/
theorem c6_failure_isolation_witness :
    mixedEnv.openImage ['p', 'i', 'c', 's', '/', 'a', '.', 'w', 'e', 'b', 'p']
      = Except.error "corrupt data" ∧
    pathJoin ['p', 'i', 'c', 's'] ['b', '.', 'W', 'E', 'B', 'P'] ∈
      convertedInputs
        (batch_convert_webp_to_jpeg mixedEnv ['p', 'i', 'c', 's'] picsListing
          90 false) := by
  refine ⟨rfl, ?_⟩
  exact (c6_failure_isolation mixedEnv okEnv ['p', 'i', 'c', 's'] picsListing
    90 false).2 ['b', '.', 'W', 'E', 'B', 'P'] (by decide) (by decide)

/-- C10: non-recursive matching is on the entry name alone: a
subdirectory whose lowercased name ends in ".webp" is passed to the
single-image converter; the decoder's failure on it is caught and logged
with the offending path, and the converter returns no output path. -/
theorem c10_name_only_matching (env : PILEnv) (dir : Path) (l : FSListing)
    (q : Int) (n : Path) (sub : FSListing) (e : String)
    (hsub : hasDirEntry l n sub) (hmatch : endsWithWebp n = true)
    (hopen : env.openImage (pathJoin dir n) = Except.error e) :
    pathJoin dir n ∈
      convertedInputs (batch_convert_webp_to_jpeg env dir l q false) ∧
    Event.errorConverting (pathJoin dir n) e ∈
      batch_convert_webp_to_jpeg env dir l q false ∧
    convert_webp_to_jpeg env (pathJoin dir n) none q =
      (none, [Event.errorConverting (pathJoin dir n) e]) := by
  have hname := hasDirEntry_name_mem n sub l hsub
  have hconv := convert_open_error env (pathJoin dir n) none q e hopen
  refine ⟨?_, ?_, hconv⟩
  · rw [batch_false_inputs]
    exact List.mem_map_of_mem _ (List.mem_filter.2 ⟨hname, hmatch⟩)
  · unfold batch_convert_webp_to_jpeg
    rw [if_neg (by simp)]
    apply List.mem_flatMap_of_mem hname
    rw [if_pos hmatch, hconv]
    simp

/-- Witness for C10: the subdirectory `d.webp` of `pics` is passed to the
converter, which fails to decode it. -/
theorem c10_name_only_matching_witness :
    endsWithWebp ['d', '.', 'w', 'e', 'b', 'p'] = true ∧
    pathJoin ['p', 'i', 'c', 's'] ['d', '.', 'w', 'e', 'b', 'p'] ∈
      convertedInputs
        (batch_convert_webp_to_jpeg failEnv ['p', 'i', 'c', 's']
          dirNamedWebpListing 90 false) := by
  refine ⟨by decide, ?_⟩
  exact (c10_name_only_matching failEnv ['p', 'i', 'c', 's']
    dirNamedWebpListing 90 ['d', '.', 'w', 'e', 'b', 'p'] FSListing.nil
    "cannot identify image file" (Or.inl ⟨rfl, rfl⟩) (by decide) rfl).1

/-- Counterexample to C7 as stated: the explicit output path `""` is
supplied alongside a directory input, yet the truthiness test
`if args.output:` on source line 83 is falsy for the empty string, so no
warning is emitted (the path is still ignored: batch conversion receives
no override). -/
theorem c7_counterexample :
    emptyOutArgs.output = some [] ∧
    Event.warnOutputIgnored ∉ main okEnv (some picsListing) emptyOutArgs := by
  refine ⟨rfl, ?_⟩
  decide

/-- C7 amended: when the input is a directory and a nonempty explicit
output path is supplied, the warning is emitted, the supplied path is
ignored, and batch conversion proceeds; the batch walker passes no
output-path override to the single-image converter, so every successful
batch conversion is reported at the derived sibling path.  (For the
empty-string output path the code's truthiness test skips the warning,
though the path is equally ignored.) -/
theorem c7_output_ignored_with_warning (env : PILEnv) (listing : FSListing)
    (args : Args) (o : Path) (hcmd : args.command = some Cmd.webp2jpeg)
    (hout : args.output = some o) (hne : o ≠ []) :
    main env (some listing) args =
      Event.warnOutputIgnored ::
        batch_convert_webp_to_jpeg env args.input listing args.quality
          args.recursive ∧
    (∀ i op, Event.converted i op ∈
        batch_convert_webp_to_jpeg env args.input listing args.quality
          args.recursive → op = derivedOutputPath i) := by
  constructor
  · have ht : outputTruthy args.output = true := by
      rw [hout]
      cases o with
      | nil => exact absurd rfl hne
      | cons a t => rfl
    simp only [main, hcmd, ht]
    simp
  · exact batch_converted_derived env args.input listing args.quality
      args.recursive

/-- Witness for the amended C7: with output `o.jpg` supplied next to a
directory input, `main` warns and proceeds with the batch. -/
theorem c7_output_ignored_with_warning_witness :
    dirOutArgs.output = some ['o', '.', 'j', 'p', 'g'] ∧
    main okEnv (some FSListing.nil) dirOutArgs =
      [Event.warnOutputIgnored] := by
  refine ⟨rfl, ?_⟩
  have h := c7_output_ignored_with_warning okEnv FSListing.nil dirOutArgs
    ['o', '.', 'j', 'p', 'g'] rfl rfl (by decide)
  rw [h.1]
  rfl

/-- C9: an invocation that does not carry the recognized command prints
the usage help and performs no conversion. -/
theorem c9_no_command_prints_help (env : PILEnv)
    (dirListing : Option FSListing) (args : Args)
    (h : args.command ≠ some Cmd.webp2jpeg) :
    main env dirListing args = [Event.printHelp] := by
  unfold main
  cases hc : args.command with
  | none => rfl
  | some c =>
    cases c
    exact absurd hc h

/-- Arguments with no command, as parsed from a bare invocation. -/
def helpArgs : Args :=
  { command := none, input := [], output := none, quality := 90,
    recursive := false }

/-- Witness for C9: with no command parsed, `main` prints the help. -/
theorem c9_no_command_prints_help_witness :
    main okEnv none helpArgs = [Event.printHelp] :=
  c9_no_command_prints_help okEnv none helpArgs (by decide)

end ImageConverter
